import Mathlib

/-!
Shallow embedding of the RAG-pipeline file-synchronization core of this
repository: the local-filesystem watcher (`rag_pipeline/Local_Files/file_watcher.py`,
class `LocalFilesWatcher`), the Google Drive watcher
(`rag_pipeline/Google_Drive/drive_watcher.py`, class `GoogleDriveWatcher`) and
the sync manager (`rag_pipeline/common/sync_manager.py`, class
`PipelineSyncManager`).

External collaborators (filesystem walk results, the text extractor, the
document store, the Google Drive API) are modelled as explicit inputs: a cycle
is a pure function of the scan result, the per-file outcomes of the external
calls, and the watcher's in-memory state.  Timestamps (`modifiedTime` ISO-8601
UTC strings compared with Python `>`, which on such strings is chronological
order) are modelled as `Nat`.  The md5 path hash of `get_file_id` is modelled
as an injective encoding of the absolute path.
-/

namespace RagPipeline

/-- Stable file identifier (md5 of the absolute path for the local source,
the Drive file id for the remote source). -/
abbrev FileId := String

/-- `known_files`: a Python dict mapping file id to last-observed
`modifiedTime`, embedded as an association list with no duplicate keys. -/
abbrev KnownMap := List (FileId × Nat)

/-- Dict lookup (`d.get(k)` / `k in d`). -/
def kLookup (m : KnownMap) (i : FileId) : Option Nat :=
  match m with
  | [] => none
  | (j, t) :: rest => if j = i then some t else kLookup rest i

/-- Dict assignment `d[k] = v`: replaces the value of an existing key in
place, otherwise appends the binding. -/
def kInsert (m : KnownMap) (i : FileId) (t : Nat) : KnownMap :=
  match m with
  | [] => [(i, t)]
  | (j, u) :: rest => if j = i then (i, t) :: rest else (j, u) :: kInsert rest i t

/-- Dict removal (`d.pop(k, None)` / guarded `del d[k]`): removes the first
binding of the key, if any. -/
def kErase (m : KnownMap) (i : FileId) : KnownMap :=
  match m with
  | [] => []
  | (j, u) :: rest => if j = i then rest else (j, u) :: kErase rest i

/-- `list(d.keys())`. -/
def kKeys (m : KnownMap) : List FileId := m.map Prod.fst

/-- The dict invariant: keys are pairwise distinct. -/
def NodupKeys (m : KnownMap) : Prop := (kKeys m).Nodup

/-- A file entry produced by `os.walk` over the watch directory: the raw
material `LocalFilesWatcher.scan_directory` filters.  `underHiddenDir` is true
when some ancestor directory's name starts with `.` (such entries are pruned
by the `dirs[:] = ...` line and never visited); `guessedMime` is the result of
`mimetypes.guess_type` (an external table), `none` when the type is unknown;
`statOk` is false when `os.stat` raises for the entry. -/
structure DirEntry where
  name : String
  path : String
  underHiddenDir : Bool
  guessedMime : Option String
  mtime : Nat
  size : Nat
  statOk : Bool
deriving Repr, DecidableEq

/-- A `SourceFile` dict as built by `scan_directory`. -/
structure SourceFile where
  id : FileId
  name : String
  path : String
  mimeType : String
  modifiedTime : Nat
  size : Nat
deriving Repr, DecidableEq

/-- `LocalFilesWatcher.get_file_id`: md5 of the absolute path, modelled as an
injective encoding of the absolute path. -/
def getFileId (absPath : String) : FileId := "md5:" ++ absPath

/-- Python `str.startswith`, evaluated on the underlying character list. -/
def strStartsWith (s pfx : String) : Bool := pfx.data.isPrefixOf s.data

/-- `LocalFilesWatcher.get_file_mime_type`: `mimetypes.guess_type` with a
`text/plain` default for unknown types. -/
def getFileMimeType (guessed : Option String) : String := guessed.getD "text/plain"

/-- `LocalFilesWatcher.is_supported_file`: membership of the inferred MIME
type in `config['supported_mime_types']`. -/
def isSupportedFile (supported : List String) (guessed : Option String) : Bool :=
  supported.contains (getFileMimeType guessed)

/-- `LocalFilesWatcher.scan_directory`.  The walk result is `none` when the
watch directory does not exist (`os.path.exists` false), in which case the
method logs and returns the empty list.  Otherwise every walked entry is kept
unless it lies under a hidden directory, is itself hidden, has an unsupported
MIME type, or its `os.stat` fails. -/
def scanDirectory (supported : List String) (dir : Option (List DirEntry)) :
    List SourceFile :=
  match dir with
  | none => []
  | some entries =>
    entries.filterMap fun e =>
      if e.underHiddenDir then none
      else if strStartsWith e.name "." then none
      else if ¬ isSupportedFile supported e.guessedMime then none
      else if ¬ e.statOk then none
      else some ⟨getFileId e.path, e.name, e.path, getFileMimeType e.guessedMime,
                 e.mtime, e.size⟩

/-- The result of `LocalFilesWatcher.get_changes`: the files to (re)process
and the ids of files considered deleted. -/
structure Changes where
  changed : List SourceFile
  deletedIds : List FileId
deriving Repr, DecidableEq

/-- The `current_files` dict built inside `get_changes` (id -> modifiedTime,
one assignment per listed file). -/
def currentFiles (listing : List SourceFile) : KnownMap :=
  listing.foldl (fun m f => kInsert m f.id f.modifiedTime) []

/-- `LocalFilesWatcher.get_changes`, parameterized by the scan result: a file
is appended to `changed_files` when its id is not in `known_files` (new) or
its listed `modifiedTime` is strictly greater than the known watermark
(modified); afterwards every known id absent from `current_files` is reported
deleted. -/
def getChanges (listing : List SourceFile) (known : KnownMap) : Changes :=
  let changed := listing.filter fun f =>
    match kLookup known f.id with
    | none => true
    | some t => t < f.modifiedTime
  let current := currentFiles listing
  let deleted := (kKeys known).filter fun i => (kLookup current i).isNone
  ⟨changed, deleted⟩

/-- Outcome of the external calls made by `LocalFilesWatcher.process_file`
for one file: the `open`/`read` of the file raises; `extract_text_from_file`
returns empty text; `process_file_for_rag` returns `False`; or everything
succeeds. -/
inductive FileOutcome where
  | readError
  | emptyText
  | ragFailure
  | ragSuccess
deriving Repr, DecidableEq

/-- The external world of one local-pipeline cycle: per-file outcomes of
`process_file`'s calls, whether `delete_document_by_file_id` succeeds for an
id, and the distinct `file_id`s currently in the `documents` table. -/
structure LocalEnv where
  proc : FileId → FileOutcome
  deleteOk : FileId → Bool
  storeIds : List FileId

/-- Result of `LocalFilesWatcher.process_file`: its boolean return value, the
updated `known_files`, and whether the external extractor and
`process_file_for_rag` (the Document Store write) were invoked. -/
structure ProcResult where
  ok : Bool
  known : KnownMap
  extractCalled : Bool
  ragCalled : Bool
deriving Repr, DecidableEq

/-- `LocalFilesWatcher.process_file`: reads the file (failure returns
`False`), extracts text (empty text returns `False` before
`process_file_for_rag` is called), runs `process_file_for_rag` (a `False`
return propagates as `False`), and only after success records
`known_files[file_id] = modifiedTime`. -/
def processFile (env : LocalEnv) (known : KnownMap) (f : SourceFile) : ProcResult :=
  match env.proc f.id with
  | .readError => ⟨false, known, false, false⟩
  | .emptyText => ⟨false, known, true, false⟩
  | .ragFailure => ⟨false, known, true, true⟩
  | .ragSuccess => ⟨true, kInsert known f.id f.modifiedTime, true, true⟩

/-- Accumulator of the changed-files loop of
`LocalFilesWatcher.check_for_changes`. -/
structure ProcessPhase where
  known : KnownMap
  processed : Nat
  errors : Nat
  attempts : List FileId
  ragCalls : List FileId
deriving Repr, DecidableEq

/-- One iteration of the changed-files loop of `check_for_changes`. -/
def pStep (env : LocalEnv) (s : ProcessPhase) (f : SourceFile) : ProcessPhase :=
  let r := processFile env s.known f
  { known := r.known
    processed := s.processed + (if r.ok then 1 else 0)
    errors := s.errors + (if r.ok then 0 else 1)
    attempts := s.attempts ++ [f.id]
    ragCalls := s.ragCalls ++ (if r.ragCalled then [f.id] else []) }

/-- The changed-files loop of `check_for_changes`: each file is handed to
`process_file`; a `True` return increments `files_processed`, a `False`
return increments `errors`, and the loop always continues with the next
file. -/
def processPhase (env : LocalEnv) (known : KnownMap) (files : List SourceFile) :
    ProcessPhase :=
  files.foldl (pStep env) ⟨known, 0, 0, [], []⟩

/-- Accumulator of the deleted-files loop of `check_for_changes`. -/
structure DeletionPhase where
  known : KnownMap
  deleted : Nat
  errors : Nat
  docDeletes : List FileId
deriving Repr, DecidableEq

/-- The deleted-files loop of `check_for_changes`: for each reported id,
`delete_document_by_file_id` is attempted; on success the id is popped from
`known_files` and `files_deleted` incremented, on an exception `errors` is
incremented and the known map is left untouched. -/
def dStep (env : LocalEnv) (s : DeletionPhase) (i : FileId) : DeletionPhase :=
  if env.deleteOk i then
    ⟨kErase s.known i, s.deleted + 1, s.errors, s.docDeletes ++ [i]⟩
  else
    ⟨s.known, s.deleted, s.errors + 1, s.docDeletes⟩

/-- The deleted-files loop of `check_for_changes` as a fold of `dStep`. -/
def deletionPhase (env : LocalEnv) (known : KnownMap) (ids : List FileId) :
    DeletionPhase :=
  ids.foldl (dStep env) ⟨known, 0, 0, []⟩

/-- `PipelineSyncManager.find_orphaned_documents`: the distinct document-store
`file_id`s (a Python set, modelled as a deduplicated list) minus the
`current_file_ids` passed by the caller. -/
def findOrphanedDocuments (storeIds : List FileId) (currentIds : List FileId) :
    List FileId :=
  storeIds.dedup.filter fun i => ¬ currentIds.contains i

/-- Result of `PipelineSyncManager.sync_deletions`. -/
structure SyncStats where
  orphanedFound : Nat
  deletedSuccess : Nat
  deletedFailed : Nat
  orphanTried : List FileId
  orphanDeleted : List FileId
deriving Repr, DecidableEq

/-- `PipelineSyncManager.sync_deletions`: computes the orphan set and calls
the supplied delete handler (`delete_document_by_file_id`) once per orphan,
counting successes and failures. -/
def sStep (env : LocalEnv) (s : SyncStats) (i : FileId) : SyncStats :=
  if env.deleteOk i then
    { s with deletedSuccess := s.deletedSuccess + 1
             orphanDeleted := s.orphanDeleted ++ [i] }
  else
    { s with deletedFailed := s.deletedFailed + 1 }

/-- The orphan-deletion loop of `sync_deletions` as a fold of `sStep` over
the computed orphan set. -/
def syncDeletions (env : LocalEnv) (currentIds : List FileId) : SyncStats :=
  let orphans := findOrphanedDocuments env.storeIds currentIds
  orphans.foldl (sStep env) ⟨orphans.length, 0, 0, orphans, []⟩

/-- The statistics dict returned by `check_for_changes`. -/
structure CycleStats where
  filesProcessed : Nat
  filesDeleted : Nat
  errors : Nat
  orphanedDeleted : Nat
deriving Repr, DecidableEq

/-- Full result of one `LocalFilesWatcher.check_for_changes` cycle. -/
structure CycleResult where
  stats : CycleStats
  known : KnownMap
  attempts : List FileId
  ragCalls : List FileId
  removalDeletes : List FileId
  orphanTried : List FileId
  orphanDeleted : List FileId
deriving Repr, DecidableEq

/-- `LocalFilesWatcher.check_for_changes`: runs `get_changes` on a fresh scan,
processes every changed file, deletes documents for every reported deleted id
(popping it from `known_files`), then runs
`sync_manager.sync_deletions(set(known_files.keys()), delete_document_by_file_id)`
over the post-deletion known map, and aggregates the statistics dict. -/
def checkForChanges (env : LocalEnv) (supported : List String)
    (dir : Option (List DirEntry)) (known : KnownMap) : CycleResult :=
  let listing := scanDirectory supported dir
  let ch := getChanges listing known
  let a := processPhase env known ch.changed
  let b := deletionPhase env a.known ch.deletedIds
  let s := syncDeletions env (kKeys b.known)
  { stats := ⟨a.processed, b.deleted, a.errors + b.errors, s.deletedSuccess⟩
    known := b.known
    attempts := a.attempts
    ragCalls := a.ragCalls
    removalDeletes := b.docDeletes
    orphanTried := s.orphanTried
    orphanDeleted := s.orphanDeleted }

/-- One row of the `rag_pipeline_state` table as returned by the state-store
query. -/
structure StateRow where
  knownFiles : KnownMap
  lastCheckTime : Option Nat
  lastRun : Option Nat
deriving Repr, DecidableEq

/-- The dictionary returned by `PipelineSyncManager.load_pipeline_state`. -/
structure PipeState where
  knownFiles : KnownMap
  lastCheckTime : Option Nat
  lastRun : Option Nat
deriving Repr, DecidableEq

/-- The empty state `{'known_files': {}, 'last_check_time': None,
'last_run': None}`. -/
def emptyPipeState : PipeState := ⟨[], none, none⟩

/-- `PipelineSyncManager.load_pipeline_state`: the Supabase query either
raises (`Except.error`) or returns a list of rows.  Any exception, and a
query returning no row, yield the empty state; otherwise the first row's
fields are returned. -/
def loadPipelineState (query : Except String (List StateRow)) : PipeState :=
  match query with
  | .error _ => emptyPipeState
  | .ok [] => emptyPipeState
  | .ok (r :: _) => ⟨r.knownFiles, r.lastCheckTime, r.lastRun⟩

/-- The watcher fields set by `LocalFilesWatcher.load_config` that the claims
concern: the in-memory `known_files` map and the `initialized` flag that
suppresses the initial full scan. -/
structure WatcherStartup where
  knownFiles : KnownMap
  initialized : Bool
deriving Repr, DecidableEq

/-- `LocalFilesWatcher.load_config`: when the config file reads successfully,
the pipeline state is loaded from the state store and, if its `known_files`
dict is non-empty, adopted with `initialized = True`; on any exception
(including an unreadable config file, which prevents the state load) the
defaults are used, `known_files` stays empty and `initialized` stays
`False`. -/
def loadConfig (configReadOk : Bool) (query : Except String (List StateRow)) :
    WatcherStartup :=
  if configReadOk then
    let st := loadPipelineState query
    if st.knownFiles.isEmpty then ⟨[], false⟩
    else ⟨st.knownFiles, true⟩
  else ⟨[], false⟩

/-- A file's metadata as listed by the Google Drive API. -/
structure DriveFile where
  id : FileId
  name : String
  mimeType : String
  modifiedTime : Nat
  trashed : Bool
deriving Repr, DecidableEq

/-- Outcome of the external calls made by `GoogleDriveWatcher.process_file`
past the trash/MIME gates: the download returns `None`; extraction returns
empty text; `process_file_for_rag` returns `False`; it returns `True`; or an
exception escapes (propagating to the per-file handler in
`check_for_changes`). -/
inductive DriveOutcome where
  | downloadError
  | emptyText
  | ragFailure
  | ragSuccess
  | raises
deriving Repr, DecidableEq

/-- Answer of the per-id `files().get(fileId, fields='trashed,name')` probe
made by `GoogleDriveWatcher.check_for_deleted_files`. -/
inductive TrashStatus where
  | active
  | trashed
  | notFound
  | otherError
deriving Repr, DecidableEq

/-- The external world of one Google Drive cycle. -/
structure DriveEnv where
  proc : FileId → DriveOutcome
  deleteOk : FileId → Bool
  trash : FileId → TrashStatus

/-- `GoogleDriveWatcher.process_file` MIME gate: the file type is accepted
when its MIME type starts with any entry of
`config['supported_mime_types']`. -/
def driveIsSupported (supported : List String) (mime : String) : Bool :=
  supported.any fun t => strStartsWith mime t

/-- Side effects of one `GoogleDriveWatcher.process_file` call. -/
structure DriveProcEffects where
  known : KnownMap
  docDeleted : Bool
  extractCalled : Bool
  ragCalled : Bool
deriving Repr, DecidableEq

/-- `GoogleDriveWatcher.process_file`: a trashed file has its documents
deleted and its id removed from `known_files` (an exception from the delete
propagates); an unsupported MIME type or a failed download or empty
extraction returns without further effect; otherwise `process_file_for_rag`
runs and — whether it returns `True` or `False` — `known_files[file_id]` is
set to the file's `modifiedTime`. -/
def driveProcessFile (env : DriveEnv) (supported : List String)
    (known : KnownMap) (f : DriveFile) : Except Unit DriveProcEffects :=
  if f.trashed then
    if env.deleteOk f.id then .ok ⟨kErase known f.id, true, false, false⟩
    else .error ()
  else if ¬ driveIsSupported supported f.mimeType then
    .ok ⟨known, false, false, false⟩
  else
    match env.proc f.id with
    | .downloadError => .ok ⟨known, false, false, false⟩
    | .emptyText => .ok ⟨known, false, true, false⟩
    | .ragFailure => .ok ⟨kInsert known f.id f.modifiedTime, false, true, true⟩
    | .ragSuccess => .ok ⟨kInsert known f.id f.modifiedTime, false, true, true⟩
    | .raises => .error ()

/-- `GoogleDriveWatcher.check_for_deleted_files`: every currently known id is
probed; ids whose probe reports `trashed`, and ids whose probe raises a
file-not-found/404 error, are returned as deleted; other probe errors are
logged and skipped. -/
def checkForDeletedFiles (env : DriveEnv) (known : KnownMap) : List FileId :=
  (kKeys known).filter fun i =>
    match env.trash i with
    | .trashed => true
    | .notFound => true
    | _ => false

/-- Statistics of one `GoogleDriveWatcher.check_for_changes` cycle (this
watcher reports no orphan figure). -/
structure DriveStats where
  filesProcessed : Nat
  filesDeleted : Nat
  errors : Nat
deriving Repr, DecidableEq

/-- Full result of one `GoogleDriveWatcher.check_for_changes` cycle. -/
structure DriveCycleResult where
  stats : DriveStats
  known : KnownMap
  extractCalls : List FileId
  ragCalls : List FileId
  docDeletes : List FileId
deriving Repr, DecidableEq

/-- Accumulator for the two loops of the drive `check_for_changes`. -/
structure DriveLoopState where
  known : KnownMap
  processed : Nat
  deleted : Nat
  errors : Nat
  extractCalls : List FileId
  ragCalls : List FileId
  docDeletes : List FileId
deriving Repr, DecidableEq

/-- The changed-files loop of the drive `check_for_changes`: each listed file
goes through `process_file`; if no exception escapes, `known_files[file.id]`
is then set (again, unconditionally) to the file's `modifiedTime` and
`files_processed` is incremented; an exception increments `errors`. -/
def drStep (env : DriveEnv) (supported : List String) (s : DriveLoopState)
    (f : DriveFile) : DriveLoopState :=
  match driveProcessFile env supported s.known f with
  | .ok eff =>
    { s with
      known := kInsert eff.known f.id f.modifiedTime
      processed := s.processed + 1
      extractCalls := s.extractCalls ++ (if eff.extractCalled then [f.id] else [])
      ragCalls := s.ragCalls ++ (if eff.ragCalled then [f.id] else [])
      docDeletes := s.docDeletes ++ (if eff.docDeleted then [f.id] else []) }
  | .error _ => { s with errors := s.errors + 1 }

/-- The changed-files loop of the drive `check_for_changes` as a fold of
`drStep`. -/
def driveProcessLoop (env : DriveEnv) (supported : List String)
    (files : List DriveFile) (init : DriveLoopState) : DriveLoopState :=
  files.foldl (drStep env supported) init

/-- The deleted-files loop of the drive `check_for_changes`: for each id,
`delete_document_by_file_id` then `del known_files[id]` (a `KeyError` when
the id is no longer present, or a delete failure, is caught and counted as an
error). -/
def ddStep (env : DriveEnv) (s : DriveLoopState) (i : FileId) : DriveLoopState :=
  if env.deleteOk i then
    if (kLookup s.known i).isSome then
      { s with known := kErase s.known i
               deleted := s.deleted + 1
               docDeletes := s.docDeletes ++ [i] }
    else { s with errors := s.errors + 1 }
  else { s with errors := s.errors + 1 }

/-- The deleted-files loop of the drive `check_for_changes` as a fold of
`ddStep`. -/
def driveDeleteLoop (env : DriveEnv) (ids : List FileId)
    (init : DriveLoopState) : DriveLoopState :=
  ids.foldl (ddStep env) init

/-- `GoogleDriveWatcher.check_for_changes`: fetches the changed-files listing
(`get_changes`, an incremental API query — here a parameter), computes
`check_for_deleted_files` over the pre-cycle known map, processes the changed
files, then processes the deletions.  No orphan reconciliation is performed
by this watcher. -/
def driveCheckForChanges (env : DriveEnv) (supported : List String)
    (known : KnownMap) (changedFiles : List DriveFile) : DriveCycleResult :=
  let deletedIds := checkForDeletedFiles env known
  let a := driveProcessLoop env supported changedFiles ⟨known, 0, 0, 0, [], [], []⟩
  let b := driveDeleteLoop env deletedIds a
  { stats := ⟨b.processed, b.deleted, b.errors⟩
    known := b.known
    extractCalls := b.extractCalls
    ragCalls := b.ragCalls
    docDeletes := b.docDeletes }

/-- Whether `process_file` returns `True` for a file; determined by the
external outcome alone. -/
def procOk (env : LocalEnv) (g : SourceFile) : Bool :=
  match env.proc g.id with
  | .ragSuccess => true
  | _ => false

/-- Whether `process_file` reaches the `process_file_for_rag` call (the
Document Store write) for a file. -/
def procRagB (env : LocalEnv) (g : SourceFile) : Bool :=
  match env.proc g.id with
  | .ragFailure => true
  | .ragSuccess => true
  | _ => false

/-- The known-map component of one `pStep` iteration. -/
def pKnownStep (env : LocalEnv) (m : KnownMap) (f : SourceFile) : KnownMap :=
  (processFile env m f).known

/-- The known-map component of one `dStep` iteration. -/
def dKnownStep (env : LocalEnv) (m : KnownMap) (i : FileId) : KnownMap :=
  if env.deleteOk i then kErase m i else m

/-- Whether `GoogleDriveWatcher.process_file` returns without raising;
determined by the file's metadata and the external outcomes alone. -/
def driveOk (env : DriveEnv) (supported : List String) (f : DriveFile) : Bool :=
  if f.trashed then env.deleteOk f.id
  else if ¬ driveIsSupported supported f.mimeType then true
  else
    match env.proc f.id with
    | .raises => false
    | _ => true

/-- Whether the drive `process_file` reaches `extract_text_from_file`. -/
def driveExtractB (env : DriveEnv) (supported : List String) (f : DriveFile) :
    Bool :=
  !f.trashed && driveIsSupported supported f.mimeType &&
    (match env.proc f.id with
     | .emptyText => true
     | .ragFailure => true
     | .ragSuccess => true
     | _ => false)

/-- Whether the drive `process_file` reaches `process_file_for_rag`. -/
def driveRagB (env : DriveEnv) (supported : List String) (f : DriveFile) : Bool :=
  !f.trashed && driveIsSupported supported f.mimeType &&
    (match env.proc f.id with
     | .ragFailure => true
     | .ragSuccess => true
     | _ => false)

/-- Whether the drive `process_file` deletes the file's documents (the
trashed path), successfully. -/
def driveDocDelB (env : DriveEnv) (f : DriveFile) : Bool :=
  f.trashed && env.deleteOk f.id

/-- The known-map component of one `drStep` iteration. -/
def driveKnownStep (env : DriveEnv) (supported : List String) (m : KnownMap)
    (f : DriveFile) : KnownMap :=
  match driveProcessFile env supported m f with
  | .ok eff => kInsert eff.known f.id f.modifiedTime
  | .error _ => m

/-- The known-map component of one `ddStep` iteration. -/
def ddKnownStep (env : DriveEnv) (m : KnownMap) (i : FileId) : KnownMap :=
  if env.deleteOk i && (kLookup m i).isSome then kErase m i else m

/-- The ids `get_changes` reports through its `New file detected` branch:
listed files whose id is not in `known_files`. -/
def addedIds (listing : List SourceFile) (known : KnownMap) : List FileId :=
  (((getChanges listing known).changed).filter
    (fun f => (kLookup known f.id).isNone)).map (·.id)

/-- The ids `get_changes` reports through its `Modified file detected`
branch: listed files whose id is known with a strictly older watermark. -/
def modifiedIds (listing : List SourceFile) (known : KnownMap) : List FileId :=
  (((getChanges listing known).changed).filter
    (fun f => (kLookup known f.id).isSome)).map (·.id)

theorem kLookup_eq_none_iff (m : KnownMap) (i : FileId) :
    kLookup m i = none ↔ i ∉ kKeys m := by
  induction m with
  | nil => simp [kLookup, kKeys]
  | cons p rest ih =>
    obtain ⟨j, t⟩ := p
    by_cases h : j = i
    · subst h; simp [kLookup, kKeys]
    · simp [kLookup, kKeys, h, Ne.symm h] at ih ⊢
      exact ih

theorem kLookup_isSome_iff (m : KnownMap) (i : FileId) :
    (kLookup m i).isSome = true ↔ i ∈ kKeys m := by
  induction m with
  | nil => simp [kLookup, kKeys]
  | cons p rest ih =>
    obtain ⟨j, t⟩ := p
    by_cases h : j = i
    · subst h; simp [kLookup, kKeys]
    · simp [kLookup, kKeys, h, Ne.symm h] at ih ⊢
      exact ih

theorem kLookup_kInsert_self (m : KnownMap) (i : FileId) (t : Nat) :
    kLookup (kInsert m i t) i = some t := by
  induction m with
  | nil => simp [kInsert, kLookup]
  | cons p rest ih =>
    obtain ⟨j, u⟩ := p
    by_cases h : j = i
    · simp [kInsert, kLookup, h]
    · simp [kInsert, kLookup, h, ih]

theorem kLookup_kInsert_ne (m : KnownMap) (i j : FileId) (t : Nat) (h : j ≠ i) :
    kLookup (kInsert m i t) j = kLookup m j := by
  induction m with
  | nil => simp [kInsert, kLookup, Ne.symm h]
  | cons p rest ih =>
    obtain ⟨k, u⟩ := p
    by_cases hk : k = i
    · subst hk
      simp [kInsert, kLookup, Ne.symm h, h]
    · simp [kInsert, kLookup, hk, ih]

theorem kLookup_kErase_self (m : KnownMap) (i : FileId) (hm : NodupKeys m) :
    kLookup (kErase m i) i = none := by
  induction m with
  | nil => simp [kErase, kLookup]
  | cons p rest ih =>
    obtain ⟨j, u⟩ := p
    simp only [NodupKeys, kKeys, List.map_cons, List.nodup_cons] at hm
    by_cases h : j = i
    · subst h
      simp only [kErase, if_pos rfl]
      rw [kLookup_eq_none_iff]
      exact hm.1
    · simp only [kErase, if_neg h, kLookup, if_neg h]
      exact ih hm.2

theorem kLookup_kErase_ne (m : KnownMap) (i j : FileId) (h : j ≠ i) :
    kLookup (kErase m i) j = kLookup m j := by
  induction m with
  | nil => simp [kErase, kLookup]
  | cons p rest ih =>
    obtain ⟨k, u⟩ := p
    by_cases hk : k = i
    · subst hk
      simp [kErase, kLookup, Ne.symm h]
    · simp [kErase, kLookup, hk, ih]

theorem kKeys_kErase_subset (m : KnownMap) (i : FileId) :
    ∀ j, j ∈ kKeys (kErase m i) → j ∈ kKeys m := by
  induction m with
  | nil => intro j hj; simpa [kErase] using hj
  | cons p rest ih =>
    obtain ⟨k, u⟩ := p
    intro j hj
    by_cases hk : k = i
    · simp only [kErase, if_pos hk] at hj
      exact List.mem_cons_of_mem _ hj
    · simp only [kErase, if_neg hk, kKeys, List.map_cons, List.mem_cons] at hj
      rw [kKeys, List.map_cons]
      rcases hj with h | h
      · exact List.mem_cons.mpr (Or.inl h)
      · exact List.mem_cons.mpr (Or.inr (ih j h))

theorem mem_kKeys_kInsert (m : KnownMap) (i j : FileId) (t : Nat) :
    j ∈ kKeys (kInsert m i t) ↔ j = i ∨ j ∈ kKeys m := by
  induction m with
  | nil => simp [kInsert, kKeys]
  | cons p rest ih =>
    obtain ⟨k, u⟩ := p
    by_cases hk : k = i
    · subst hk
      simp [kInsert, kKeys]
    · simp [kInsert, kKeys, hk] at ih ⊢
      tauto

theorem nodupKeys_kInsert (m : KnownMap) (i : FileId) (t : Nat)
    (h : NodupKeys m) : NodupKeys (kInsert m i t) := by
  induction m with
  | nil => simp [kInsert, NodupKeys, kKeys]
  | cons p rest ih =>
    obtain ⟨k, u⟩ := p
    simp only [NodupKeys, kKeys, List.map_cons, List.nodup_cons] at h
    by_cases hk : k = i
    · subst hk
      simpa [kInsert, NodupKeys, kKeys, List.nodup_cons] using h
    · have ihr := ih h.2
      simp only [kInsert, if_neg hk, NodupKeys, kKeys, List.map_cons,
        List.nodup_cons] at ihr ⊢
      refine ⟨?_, ihr⟩
      intro hmem
      rcases (mem_kKeys_kInsert rest i k t).mp hmem with h1 | h1
      · exact hk h1
      · exact h.1 h1

theorem nodupKeys_kErase (m : KnownMap) (i : FileId)
    (h : NodupKeys m) : NodupKeys (kErase m i) := by
  induction m with
  | nil => simpa [kErase] using h
  | cons p rest ih =>
    obtain ⟨k, u⟩ := p
    simp only [NodupKeys, kKeys, List.map_cons, List.nodup_cons] at h
    by_cases hk : k = i
    · simpa only [kErase, if_pos hk, NodupKeys] using h.2
    · have ihr := ih h.2
      simp only [kErase, if_neg hk, NodupKeys, kKeys, List.map_cons,
        List.nodup_cons] at ihr ⊢
      exact ⟨fun hmem => h.1 (kKeys_kErase_subset rest i k hmem), ihr⟩

theorem kErase_of_lookup_none (m : KnownMap) (i : FileId)
    (h : kLookup m i = none) : kErase m i = m := by
  induction m with
  | nil => rfl
  | cons p rest ih =>
    obtain ⟨k, u⟩ := p
    by_cases hk : k = i
    · simp [kLookup, hk] at h
    · simp only [kLookup, if_neg hk] at h
      simp [kErase, hk, ih h]

theorem kLookup_kErase_none (m : KnownMap) (i j : FileId)
    (h : kLookup m i = none) : kLookup (kErase m j) i = none := by
  by_cases hji : i = j
  · subst hji
    rw [kErase_of_lookup_none m i h]
    exact h
  · rw [kLookup_kErase_ne m j i hji]
    exact h

theorem processFile_ok (env : LocalEnv) (m : KnownMap) (f : SourceFile) :
    (processFile env m f).ok = procOk env f := by
  unfold processFile procOk
  cases env.proc f.id <;> rfl

theorem processFile_ragCalled (env : LocalEnv) (m : KnownMap) (f : SourceFile) :
    (processFile env m f).ragCalled = procRagB env f := by
  unfold processFile procRagB
  cases env.proc f.id <;> rfl

theorem processFile_known (env : LocalEnv) (m : KnownMap) (f : SourceFile) :
    (processFile env m f).known =
      (if procOk env f then kInsert m f.id f.modifiedTime else m) := by
  unfold processFile procOk
  cases env.proc f.id <;> rfl

theorem foldl_pStep_fields (env : LocalEnv) (files : List SourceFile) :
    ∀ s : ProcessPhase,
      files.foldl (pStep env) s =
        ⟨files.foldl (pKnownStep env) s.known,
         s.processed + (files.filter (procOk env)).length,
         s.errors + (files.filter fun g => ! procOk env g).length,
         s.attempts ++ files.map (·.id),
         s.ragCalls ++ (files.filter (procRagB env)).map (·.id)⟩ := by
  induction files with
  | nil => intro s; simp
  | cons f rest ih =>
    intro s
    rw [List.foldl_cons, List.foldl_cons, ih]
    simp only [pStep, processFile_ok, processFile_ragCalled, pKnownStep,
      List.filter_cons, List.map_cons]
    cases h : procOk env f <;> cases hr : procRagB env f <;>
      simp [h, hr, Nat.add_assoc, List.append_assoc] <;> omega

theorem processPhase_eq (env : LocalEnv) (known : KnownMap)
    (files : List SourceFile) :
    processPhase env known files =
      ⟨files.foldl (pKnownStep env) known,
       (files.filter (procOk env)).length,
       (files.filter fun g => ! procOk env g).length,
       files.map (·.id),
       (files.filter (procRagB env)).map (·.id)⟩ := by
  unfold processPhase
  rw [foldl_pStep_fields]
  simp

theorem foldl_dStep_fields (env : LocalEnv) (ids : List FileId) :
    ∀ s : DeletionPhase,
      ids.foldl (dStep env) s =
        ⟨ids.foldl (dKnownStep env) s.known,
         s.deleted + (ids.filter env.deleteOk).length,
         s.errors + (ids.filter fun i => ! env.deleteOk i).length,
         s.docDeletes ++ ids.filter env.deleteOk⟩ := by
  induction ids with
  | nil => intro s; simp
  | cons i rest ih =>
    intro s
    rw [List.foldl_cons, List.foldl_cons, ih]
    simp only [dStep, dKnownStep, List.filter_cons]
    cases h : env.deleteOk i <;>
      simp [h, Nat.add_assoc, List.append_assoc] <;> omega

theorem deletionPhase_eq (env : LocalEnv) (known : KnownMap)
    (ids : List FileId) :
    deletionPhase env known ids =
      ⟨ids.foldl (dKnownStep env) known,
       (ids.filter env.deleteOk).length,
       (ids.filter fun i => ! env.deleteOk i).length,
       ids.filter env.deleteOk⟩ := by
  unfold deletionPhase
  rw [foldl_dStep_fields]
  simp

theorem foldl_sStep_fields (env : LocalEnv) (ids : List FileId) :
    ∀ s : SyncStats,
      ids.foldl (sStep env) s =
        ⟨s.orphanedFound,
         s.deletedSuccess + (ids.filter env.deleteOk).length,
         s.deletedFailed + (ids.filter fun i => ! env.deleteOk i).length,
         s.orphanTried,
         s.orphanDeleted ++ ids.filter env.deleteOk⟩ := by
  induction ids with
  | nil => intro s; simp
  | cons i rest ih =>
    intro s
    rw [List.foldl_cons, ih]
    simp only [sStep, List.filter_cons]
    cases h : env.deleteOk i <;>
      simp [h, Nat.add_assoc, List.append_assoc] <;> omega

theorem syncDeletions_eq (env : LocalEnv) (currentIds : List FileId) :
    syncDeletions env currentIds =
      ⟨(findOrphanedDocuments env.storeIds currentIds).length,
       ((findOrphanedDocuments env.storeIds currentIds).filter env.deleteOk).length,
       ((findOrphanedDocuments env.storeIds currentIds).filter
          fun i => ! env.deleteOk i).length,
       findOrphanedDocuments env.storeIds currentIds,
       (findOrphanedDocuments env.storeIds currentIds).filter env.deleteOk⟩ := by
  unfold syncDeletions
  rw [foldl_sStep_fields]
  simp

theorem kLookup_foldl_kInsert_not_mem (l : List SourceFile) (m : KnownMap)
    (i : FileId) (h : i ∉ l.map (·.id)) :
    kLookup (l.foldl (fun m f => kInsert m f.id f.modifiedTime) m) i =
      kLookup m i := by
  induction l generalizing m with
  | nil => rfl
  | cons g rest ih =>
    simp only [List.map_cons, List.mem_cons] at h
    push_neg at h
    rw [List.foldl_cons, ih _ h.2, kLookup_kInsert_ne _ _ _ _ h.1]

theorem kLookup_foldl_kInsert_isSome (l : List SourceFile) (m : KnownMap)
    (i : FileId) :
    (kLookup (l.foldl (fun m f => kInsert m f.id f.modifiedTime) m) i).isSome
        = true ↔
      (kLookup m i).isSome = true ∨ i ∈ l.map (·.id) := by
  induction l generalizing m with
  | nil => simp
  | cons g rest ih =>
    rw [List.foldl_cons, ih]
    by_cases hg : i = g.id
    · subst hg
      simp [kLookup_kInsert_self]
    · rw [kLookup_kInsert_ne _ _ _ _ hg]
      simp [hg]

theorem kLookup_currentFiles_isSome_iff (listing : List SourceFile)
    (i : FileId) :
    (kLookup (currentFiles listing) i).isSome = true ↔
      i ∈ listing.map (·.id) := by
  unfold currentFiles
  rw [kLookup_foldl_kInsert_isSome]
  simp [kLookup]

theorem kLookup_currentFiles_eq_none_iff (listing : List SourceFile)
    (i : FileId) :
    kLookup (currentFiles listing) i = none ↔ i ∉ listing.map (·.id) := by
  rw [← kLookup_currentFiles_isSome_iff listing i]
  cases kLookup (currentFiles listing) i <;> simp

theorem kLookup_foldl_kInsert_of_mem (l : List SourceFile) (f : SourceFile) :
    ∀ m : KnownMap, (l.map (·.id)).Nodup → f ∈ l →
      kLookup (l.foldl (fun m f => kInsert m f.id f.modifiedTime) m) f.id
        = some f.modifiedTime := by
  induction l with
  | nil => intro m _ hf; cases hf
  | cons g rest ih =>
    intro m hl hf
    simp only [List.map_cons, List.nodup_cons] at hl
    rcases List.mem_cons.mp hf with hfg | hfr
    · subst hfg
      rw [List.foldl_cons, kLookup_foldl_kInsert_not_mem _ _ _ hl.1,
        kLookup_kInsert_self]
    · rw [List.foldl_cons]
      exact ih _ hl.2 hfr

theorem kLookup_currentFiles_of_nodup (listing : List SourceFile)
    (hl : (listing.map (·.id)).Nodup) (f : SourceFile) (hf : f ∈ listing) :
    kLookup (currentFiles listing) f.id = some f.modifiedTime :=
  kLookup_foldl_kInsert_of_mem listing f [] hl hf

theorem kLookup_foldl_pKnownStep_not_mem (env : LocalEnv)
    (files : List SourceFile) (m : KnownMap) (i : FileId)
    (h : i ∉ files.map (·.id)) :
    kLookup (files.foldl (pKnownStep env) m) i = kLookup m i := by
  induction files generalizing m with
  | nil => rfl
  | cons g rest ih =>
    simp only [List.map_cons, List.mem_cons] at h
    push_neg at h
    rw [List.foldl_cons, ih _ h.2]
    rw [pKnownStep, processFile_known]
    cases hg : procOk env g
    · simp
    · simp [kLookup_kInsert_ne _ _ _ _ h.1]

theorem kLookup_foldl_pKnownStep_of_mem (env : LocalEnv)
    (files : List SourceFile) (f : SourceFile) :
    ∀ m : KnownMap, f ∈ files → (files.map (·.id)).Nodup →
      kLookup (files.foldl (pKnownStep env) m) f.id =
        if procOk env f then some f.modifiedTime else kLookup m f.id := by
  induction files with
  | nil => intro m hf _; cases hf
  | cons g rest ih =>
    intro m hf hl
    simp only [List.map_cons, List.nodup_cons] at hl
    rcases List.mem_cons.mp hf with hfg | hfr
    · subst hfg
      rw [List.foldl_cons, kLookup_foldl_pKnownStep_not_mem env rest _ _ hl.1]
      rw [pKnownStep, processFile_known]
      cases hg : procOk env f
      · simp
      · simp [kLookup_kInsert_self]
    · have hne : g.id ≠ f.id := by
        intro hEq
        exact hl.1 (hEq ▸ List.mem_map_of_mem (·.id) hfr)
      rw [List.foldl_cons]
      rw [ih _ hfr hl.2]
      rw [pKnownStep, processFile_known]
      cases hg : procOk env g
      · simp
      · simp [kLookup_kInsert_ne _ _ _ _ (Ne.symm hne)]

theorem getChanges_changed_mem (listing : List SourceFile) (known : KnownMap)
    (f : SourceFile) :
    f ∈ (getChanges listing known).changed ↔
      f ∈ listing ∧
        ((kLookup known f.id = none) ∨
          (∃ t, kLookup known f.id = some t ∧ t < f.modifiedTime)) := by
  unfold getChanges
  simp only [List.mem_filter]
  constructor
  · rintro ⟨hmem, hp⟩
    refine ⟨hmem, ?_⟩
    cases hk : kLookup known f.id with
    | none => exact Or.inl rfl
    | some t =>
      rw [hk] at hp
      simp only [decide_eq_true_eq] at hp
      exact Or.inr ⟨t, rfl, hp⟩
  · rintro ⟨hmem, hp⟩
    refine ⟨hmem, ?_⟩
    rcases hp with hk | ⟨t, hk, ht⟩
    · simp [hk]
    · simp [hk, ht]

theorem getChanges_deleted_mem (listing : List SourceFile) (known : KnownMap)
    (i : FileId) :
    i ∈ (getChanges listing known).deletedIds ↔
      i ∈ kKeys known ∧ i ∉ listing.map (·.id) := by
  unfold getChanges
  simp only [List.mem_filter, Option.isNone_iff_eq_none,
    kLookup_currentFiles_eq_none_iff, decide_eq_true_eq]

theorem mem_findOrphanedDocuments (storeIds currentIds : List FileId)
    (i : FileId) :
    i ∈ findOrphanedDocuments storeIds currentIds ↔
      i ∈ storeIds ∧ i ∉ currentIds := by
  unfold findOrphanedDocuments
  simp

/-- C10: `load_pipeline_state` never propagates an exception: both a raising
state-store query and a missing state row yield the empty state
`{known_files: {}, last_check_time: None, last_run: None}`; consequently a
state-store outage at startup looks like a first run: `load_config` leaves
the initial-scan suppression flag unset, and a change check against an empty
known-file map reports every listed source file as newly added and nothing
as deleted. -/
theorem C10_load_state_failure_is_first_run :
    (∀ e : String, loadPipelineState (.error e) = emptyPipeState) ∧
    loadPipelineState (.ok []) = emptyPipeState ∧
    (∀ e : String, loadConfig true (.error e) = ⟨[], false⟩) ∧
    loadConfig true (.ok []) = ⟨[], false⟩ ∧
    (∀ listing : List SourceFile, getChanges listing [] = ⟨listing, []⟩) := by
  refine ⟨fun e => rfl, rfl, fun e => rfl, rfl, fun listing => ?_⟩
  unfold getChanges
  simp [kLookup, kKeys]

/-- C1 (the code's actual behavior at the failing input): with one known
file and the watch directory missing, `scan_directory` returns the empty
listing, `get_changes` classifies the known file as deleted, and the cycle
deletes its document-store records both through the removal path and — the
known map now being empty — deletes every document-store record through the
orphan reconciler.  The claim requires zero deletions here. -/
theorem C1_missing_directory_fabricates_deletions :
    scanDirectory ["text/plain"] none = [] ∧
    (getChanges (scanDirectory ["text/plain"] none) [("fileA", 5)]).deletedIds
      = ["fileA"] ∧
    (checkForChanges ⟨fun _ => .ragSuccess, fun _ => true, ["fileA", "fileB"]⟩
        ["text/plain"] none [("fileA", 5)]).stats.filesDeleted = 1 ∧
    (checkForChanges ⟨fun _ => .ragSuccess, fun _ => true, ["fileA", "fileB"]⟩
        ["text/plain"] none [("fileA", 5)]).orphanDeleted = ["fileA", "fileB"] ∧
    (checkForChanges ⟨fun _ => .ragSuccess, fun _ => true, ["fileA", "fileB"]⟩
        ["text/plain"] none [("fileA", 5)]).known = [] := by
  decide

/-- C2 counterexample: the listing contains the file with id
`md5:/d/x.txt` (so the spec's formula `store_ids - full_listing_ids`
is empty), the file's processing fails, and the document store holds that
id: the reconciler nevertheless deletes it, because the code subtracts the
known-file map's keys, not the source enumeration. -/
theorem C2_counterexample :
    findOrphanedDocuments ["md5:/d/x.txt"]
        ((scanDirectory ["text/plain"]
          (some [⟨"x.txt", "/d/x.txt", false, some "text/plain", 7, 3, true⟩])).map
            (·.id)) = [] ∧
    (checkForChanges ⟨fun _ => .ragFailure, fun _ => true, ["md5:/d/x.txt"]⟩
        ["text/plain"]
        (some [⟨"x.txt", "/d/x.txt", false, some "text/plain", 7, 3, true⟩])
        []).orphanDeleted = ["md5:/d/x.txt"] := by
  decide

/-- C2 amended: each local-pipeline cycle runs exactly one reconciliation
pass whose orphan set is the document store's distinct `file_id`s minus the
keys of the in-memory known-file map as it stands after the cycle's
processing and deletion phases (not minus the source enumeration), and every
orphan whose per-`file_id` delete succeeds is deleted (the same
`delete_document_by_file_id` used for ordinary removals). -/
theorem C2_amended_orphan_formula (env : LocalEnv) (supported : List String)
    (dir : Option (List DirEntry)) (known : KnownMap) :
    (∀ i, i ∈ (checkForChanges env supported dir known).orphanTried ↔
        (i ∈ env.storeIds ∧
          i ∉ kKeys (checkForChanges env supported dir known).known)) ∧
    (checkForChanges env supported dir known).orphanDeleted =
      (checkForChanges env supported dir known).orphanTried.filter
        env.deleteOk := by
  constructor
  · intro i
    have h : (checkForChanges env supported dir known).orphanTried =
        findOrphanedDocuments env.storeIds
          (kKeys (checkForChanges env supported dir known).known) := by
      simp only [checkForChanges, syncDeletions_eq]
    rw [h, mem_findOrphanedDocuments]
  · simp only [checkForChanges, syncDeletions_eq]

/-- C3: restart safety.  Loading a persisted state whose known-file map `K`
is non-empty adopts `K` and sets the `initialized` flag (suppressing the
initial full scan), and a subsequent cycle whose fresh scan lists exactly
the known files with unchanged `modifiedTime`s processes zero files and
deletes zero files. -/
theorem C3_restart_safety (K : KnownMap) (row : StateRow)
    (rows : List StateRow) (hrow : row.knownFiles = K)
    (hK : K.isEmpty = false) (env : LocalEnv) (supported : List String)
    (dir : Option (List DirEntry))
    (hsame : ∀ f ∈ scanDirectory supported dir,
      kLookup K f.id = some f.modifiedTime)
    (hcover : ∀ i ∈ kKeys K, i ∈ (scanDirectory supported dir).map (·.id)) :
    loadConfig true (.ok (row :: rows)) = ⟨K, true⟩ ∧
    (checkForChanges env supported dir K).stats.filesProcessed = 0 ∧
    (checkForChanges env supported dir K).stats.filesDeleted = 0 := by
  have hch : getChanges (scanDirectory supported dir) K = ⟨[], []⟩ := by
    unfold getChanges
    refine congrArg₂ Changes.mk ?_ ?_
    · rw [List.filter_eq_nil]
      intro f hf
      rw [hsame f hf]
      simp
    · rw [List.filter_eq_nil]
      intro i hi
      have := (kLookup_currentFiles_isSome_iff (scanDirectory supported dir)
        i).mpr (hcover i hi)
      simp [Option.isNone_iff_eq_none]
      intro hnone
      rw [hnone] at this
      cases this
  refine ⟨?_, ?_, ?_⟩
  · simp [loadConfig, loadPipelineState, hrow, hK]
  · simp only [checkForChanges, hch, processPhase_eq]
    simp
  · simp only [checkForChanges, hch, processPhase_eq, deletionPhase_eq]
    simp

/-- C3 witness: one persisted known file, one unchanged file on disk. -/
theorem C3_restart_safety_witness :
    loadConfig true (.ok [⟨[("md5:/w/a.txt", 5)], none, none⟩])
      = ⟨[("md5:/w/a.txt", 5)], true⟩ ∧
    (checkForChanges ⟨fun _ => .ragSuccess, fun _ => true, ["md5:/w/a.txt"]⟩
        ["text/plain"] (some [⟨"a.txt", "/w/a.txt", false, some "text/plain", 5, 3, true⟩])
        [("md5:/w/a.txt", 5)]).stats.filesProcessed = 0 ∧
    (checkForChanges ⟨fun _ => .ragSuccess, fun _ => true, ["md5:/w/a.txt"]⟩
        ["text/plain"] (some [⟨"a.txt", "/w/a.txt", false, some "text/plain", 5, 3, true⟩])
        [("md5:/w/a.txt", 5)]).stats.filesDeleted = 0 :=
  C3_restart_safety [("md5:/w/a.txt", 5)] ⟨[("md5:/w/a.txt", 5)], none, none⟩
    [] rfl rfl ⟨fun _ => .ragSuccess, fun _ => true, ["md5:/w/a.txt"]⟩
    ["text/plain"] (some [⟨"a.txt", "/w/a.txt", false, some "text/plain", 5, 3, true⟩])
    (by decide) (by decide)

/-- C4: the change detector, on a listing with distinct ids, produces three
pairwise-disjoint sets with exactly these memberships: an id is added iff it
is listed and not in the known map; modified iff it is in both with a
strictly greater listed `modifiedTime` than the known watermark; removed iff
it is known and not found in the fresh full walk. -/
theorem C4_change_detector (listing : List SourceFile) (known : KnownMap)
    (hl : (listing.map (·.id)).Nodup) :
    (∀ i, i ∈ addedIds listing known ↔
        (i ∈ listing.map (·.id) ∧ i ∉ kKeys known)) ∧
    (∀ i, i ∈ modifiedIds listing known ↔
        (∃ tL tK, kLookup (currentFiles listing) i = some tL ∧
            kLookup known i = some tK ∧ tK < tL)) ∧
    (∀ i, i ∈ (getChanges listing known).deletedIds ↔
        (i ∈ kKeys known ∧ i ∉ listing.map (·.id))) ∧
    (∀ i, ¬ (i ∈ addedIds listing known ∧ i ∈ modifiedIds listing known)) ∧
    (∀ i, ¬ (i ∈ addedIds listing known ∧
             i ∈ (getChanges listing known).deletedIds)) ∧
    (∀ i, ¬ (i ∈ modifiedIds listing known ∧
             i ∈ (getChanges listing known).deletedIds)) := by
  have hAdd : ∀ i, i ∈ addedIds listing known ↔
      i ∈ listing.map (·.id) ∧ kLookup known i = none := by
    intro i
    unfold addedIds
    rw [List.mem_map]
    constructor
    · rintro ⟨f, hf, rfl⟩
      rw [List.mem_filter] at hf
      obtain ⟨hfc, hfn⟩ := hf
      rw [getChanges_changed_mem] at hfc
      refine ⟨List.mem_map_of_mem _ hfc.1, ?_⟩
      simpa [Option.isNone_iff_eq_none] using hfn
    · rintro ⟨hmem, hnone⟩
      rw [List.mem_map] at hmem
      obtain ⟨f, hfl, rfl⟩ := hmem
      refine ⟨f, ?_, rfl⟩
      rw [List.mem_filter, getChanges_changed_mem]
      exact ⟨⟨hfl, Or.inl hnone⟩, by simp [hnone]⟩
  have hMod : ∀ i, i ∈ modifiedIds listing known ↔
      (∃ tL tK, kLookup (currentFiles listing) i = some tL ∧
        kLookup known i = some tK ∧ tK < tL) := by
    intro i
    unfold modifiedIds
    rw [List.mem_map]
    constructor
    · rintro ⟨f, hf, rfl⟩
      rw [List.mem_filter] at hf
      obtain ⟨hfc, hfs⟩ := hf
      rw [getChanges_changed_mem] at hfc
      obtain ⟨hfl, hcond⟩ := hfc
      rcases hcond with hnone | ⟨t, hk, ht⟩
      · simp [hnone] at hfs
      · exact ⟨f.modifiedTime, t,
          kLookup_currentFiles_of_nodup listing hl f hfl, hk, ht⟩
    · rintro ⟨tL, tK, hcur, hk, hlt⟩
      have hi : i ∈ listing.map (·.id) := by
        rw [← kLookup_currentFiles_isSome_iff]
        simp [hcur]
      rw [List.mem_map] at hi
      obtain ⟨f, hfl, rfl⟩ := hi
      have hself : kLookup (currentFiles listing) f.id = some f.modifiedTime :=
        kLookup_currentFiles_of_nodup listing hl f hfl
      rw [hself] at hcur
      injection hcur with hEq
      refine ⟨f, ?_, rfl⟩
      rw [List.mem_filter, getChanges_changed_mem]
      refine ⟨⟨hfl, Or.inr ⟨tK, hk, ?_⟩⟩, by simp [hk]⟩
      rw [hEq]
      exact hlt
  refine ⟨?_, hMod, fun i => getChanges_deleted_mem listing known i,
    ?_, ?_, ?_⟩
  · intro i
    rw [hAdd i, kLookup_eq_none_iff]
  · intro i
    rintro ⟨ha, hm⟩
    rw [hAdd i] at ha
    rw [hMod i] at hm
    obtain ⟨tL, tK, _, hk, _⟩ := hm
    rw [ha.2] at hk
    cases hk
  · intro i
    rintro ⟨ha, hd⟩
    rw [hAdd i] at ha
    rw [getChanges_deleted_mem] at hd
    exact hd.2 ha.1
  · intro i
    rintro ⟨hm, hd⟩
    rw [hMod i] at hm
    rw [getChanges_deleted_mem] at hd
    obtain ⟨tL, tK, hcur, _, _⟩ := hm
    have hi : i ∈ listing.map (·.id) := by
      rw [← kLookup_currentFiles_isSome_iff]
      simp [hcur]
    exact hd.2 hi

/-- C4 witness: a two-file listing (one new, one modified) against a known
map holding the modified file's old watermark and one vanished file. -/
theorem C4_change_detector_witness :
    "A" ∈ addedIds [⟨"A", "a", "/a", "text/plain", 5, 1⟩,
        ⟨"B", "b", "/b", "text/plain", 7, 1⟩] [("B", 3), ("C", 9)] ∧
    "B" ∈ modifiedIds [⟨"A", "a", "/a", "text/plain", 5, 1⟩,
        ⟨"B", "b", "/b", "text/plain", 7, 1⟩] [("B", 3), ("C", 9)] ∧
    "C" ∈ (getChanges [⟨"A", "a", "/a", "text/plain", 5, 1⟩,
        ⟨"B", "b", "/b", "text/plain", 7, 1⟩] [("B", 3), ("C", 9)]).deletedIds := by
  obtain ⟨ha, hm, hd, _, _, _⟩ :=
    C4_change_detector [⟨"A", "a", "/a", "text/plain", 5, 1⟩,
      ⟨"B", "b", "/b", "text/plain", 7, 1⟩] [("B", 3), ("C", 9)] (by decide)
  exact ⟨(ha "A").mpr (by decide),
    (hm "B").mpr ⟨7, 3, by decide, by decide, by decide⟩,
    (hd "C").mpr (by decide)⟩

/-- C5: monotonic watermark.  If the known map records watermark `T1` for a
file id and the fresh scan lists that file with the same `modifiedTime`, the
cycle does not hand it to `process_file` and performs no
`process_file_for_rag` write for it; if the scan lists a strictly newer
`modifiedTime`, the cycle hands it to `process_file` exactly once. -/
theorem C5_monotonic_watermark (env : LocalEnv) (supported : List String)
    (dir : Option (List DirEntry)) (known : KnownMap) (i : FileId) (T1 : Nat)
    (f : SourceFile) (hK : kLookup known i = some T1)
    (hf : f ∈ scanDirectory supported dir) (hid : f.id = i)
    (hl : ((scanDirectory supported dir).map (·.id)).Nodup) :
    (f.modifiedTime = T1 →
      (checkForChanges env supported dir known).attempts.count i = 0 ∧
      i ∉ (checkForChanges env supported dir known).ragCalls) ∧
    (T1 < f.modifiedTime →
      (checkForChanges env supported dir known).attempts.count i = 1) := by
  have hattempts : (checkForChanges env supported dir known).attempts =
      ((getChanges (scanDirectory supported dir) known).changed).map (·.id) := by
    simp only [checkForChanges, processPhase_eq]
  have hrag : (checkForChanges env supported dir known).ragCalls =
      (((getChanges (scanDirectory supported dir) known).changed).filter
        (procRagB env)).map (·.id) := by
    simp only [checkForChanges, processPhase_eq]
  constructor
  · intro hT
    have hnot : i ∉ ((getChanges (scanDirectory supported dir)
        known).changed).map (·.id) := by
      intro hmem
      rw [List.mem_map] at hmem
      obtain ⟨g, hgc, hgi⟩ := hmem
      rw [getChanges_changed_mem] at hgc
      obtain ⟨hgl, hcond⟩ := hgc
      have hfg : g = f := by
        apply List.inj_on_of_nodup_map hl hgl hf
        rw [hgi, hid]
      subst hfg
      rcases hcond with hnone | ⟨t, hk, ht⟩
      · rw [hgi, hK] at hnone
        cases hnone
      · rw [hgi, hK] at hk
        injection hk with h'
        subst h'
        rw [hT] at ht
        exact lt_irrefl _ ht
    refine ⟨by rw [hattempts]; exact List.count_eq_zero.mpr hnot, ?_⟩
    rw [hrag]
    intro hmem
    rw [List.mem_map] at hmem
    obtain ⟨g, hgf, hgi⟩ := hmem
    rw [List.mem_filter] at hgf
    exact hnot (by rw [List.mem_map]; exact ⟨g, hgf.1, hgi⟩)
  · intro hT
    have hfc : f ∈ (getChanges (scanDirectory supported dir) known).changed := by
      rw [getChanges_changed_mem]
      refine ⟨hf, Or.inr ⟨T1, ?_, hT⟩⟩
      rw [hid]
      exact hK
    have hsub : ((getChanges (scanDirectory supported dir) known).changed).Sublist
        (scanDirectory supported dir) := by
      unfold getChanges
      exact List.filter_sublist _
    have hnodup : (((getChanges (scanDirectory supported dir)
        known).changed).map (·.id)).Nodup :=
      List.Nodup.sublist (List.Sublist.map _ hsub) hl
    rw [hattempts]
    exact List.count_eq_one_of_mem hnodup
      (by rw [List.mem_map]; exact ⟨f, hfc, hid⟩)

/-- C5 witness: one known file re-listed with a strictly newer timestamp is
handed to processing exactly once. -/
theorem C5_monotonic_watermark_witness :
    ((7 : Nat) = 5 →
      (checkForChanges ⟨fun _ => .ragSuccess, fun _ => true, []⟩ ["text/plain"]
          (some [⟨"a.txt", "/w/a", false, some "text/plain", 7, 3, true⟩])
          [("md5:/w/a", 5)]).attempts.count "md5:/w/a" = 0 ∧
      "md5:/w/a" ∉ (checkForChanges ⟨fun _ => .ragSuccess, fun _ => true, []⟩
          ["text/plain"]
          (some [⟨"a.txt", "/w/a", false, some "text/plain", 7, 3, true⟩])
          [("md5:/w/a", 5)]).ragCalls) ∧
    ((5 : Nat) < 7 →
      (checkForChanges ⟨fun _ => .ragSuccess, fun _ => true, []⟩ ["text/plain"]
          (some [⟨"a.txt", "/w/a", false, some "text/plain", 7, 3, true⟩])
          [("md5:/w/a", 5)]).attempts.count "md5:/w/a" = 1) :=
  C5_monotonic_watermark ⟨fun _ => .ragSuccess, fun _ => true, []⟩
    ["text/plain"] (some [⟨"a.txt", "/w/a", false, some "text/plain", 7, 3, true⟩])
    [("md5:/w/a", 5)] "md5:/w/a" 5
    ⟨"md5:/w/a", "a.txt", "/w/a", "text/plain", 7, 3⟩
    (by decide) (by decide) rfl (by decide)

/-- C6 counterexample: in the Google Drive cycle a file whose download fails
(`process_file` returns before any extraction or store write) nevertheless
has its known-map watermark advanced to the new `modifiedTime` by the
unconditional update in `check_for_changes`, is counted in
`files_processed`, and contributes no error — the claim requires the
watermark to be left unchanged on failure. -/
theorem C6_counterexample :
    (driveCheckForChanges ⟨fun _ => .downloadError, fun _ => true,
        fun _ => .active⟩ ["text/plain"] []
        [⟨"X", "doc", "text/plain", 9, false⟩]).known = [("X", 9)] ∧
    (driveCheckForChanges ⟨fun _ => .downloadError, fun _ => true,
        fun _ => .active⟩ ["text/plain"] []
        [⟨"X", "doc", "text/plain", 9, false⟩]).stats.filesProcessed = 1 ∧
    (driveCheckForChanges ⟨fun _ => .downloadError, fun _ => true,
        fun _ => .active⟩ ["text/plain"] []
        [⟨"X", "doc", "text/plain", 9, false⟩]).stats.errors = 0 ∧
    (driveCheckForChanges ⟨fun _ => .downloadError, fun _ => true,
        fun _ => .active⟩ ["text/plain"] []
        [⟨"X", "doc", "text/plain", 9, false⟩]).ragCalls = [] := by
  decide

/-- C6 amended: in the local pipeline the known-map watermark of a batch
file is set to its new `modifiedTime` iff its processing returned success,
on failure its known watermark is unchanged, failures do not stop the batch
(every file lands in exactly one of the success and error counters), and
failures are counted in the errors statistic; in the remote pipeline the
watermark is instead advanced after every processing attempt from which no
exception escapes, successful or not. -/
theorem C6_amended_watermark (env : LocalEnv) (known : KnownMap)
    (files : List SourceFile) (f : SourceFile)
    (hf : f ∈ files) (hl : (files.map (·.id)).Nodup) :
    (procOk env f = true →
      kLookup (processPhase env known files).known f.id
        = some f.modifiedTime) ∧
    (procOk env f = false →
      kLookup (processPhase env known files).known f.id
        = kLookup known f.id) ∧
    (processPhase env known files).processed
      = (files.filter (procOk env)).length ∧
    (processPhase env known files).errors
      = (files.filter fun g => ! procOk env g).length ∧
    (∀ (denv : DriveEnv) (supported : List String) (k : KnownMap)
        (g : DriveFile) (eff : DriveProcEffects),
      driveProcessFile denv supported k g = .ok eff →
      (driveProcessLoop denv supported [g] ⟨k, 0, 0, 0, [], [], []⟩).known
        = kInsert eff.known g.id g.modifiedTime) := by
  have hlook := kLookup_foldl_pKnownStep_of_mem env files f known hf hl
  refine ⟨?_, ?_, ?_, ?_, ?_⟩
  · intro hok
    rw [processPhase_eq]
    rw [hlook, hok]
    rfl
  · intro hok
    rw [processPhase_eq]
    rw [hlook, hok]
    rfl
  · rw [processPhase_eq]
  · rw [processPhase_eq]
  · intro denv supported k g eff heff
    simp [driveProcessLoop, drStep, heff]

/-- C6 witness: a two-file local batch in which the first file fails and the
second succeeds, plus one drive file processed through the loop. -/
theorem C6_amended_watermark_witness :
    ((match (⟨fun i => if i = "A" then .ragFailure else .ragSuccess,
          fun _ => true, []⟩ : LocalEnv).proc "A" with
        | .ragSuccess => true
        | _ => false) = true →
      kLookup (processPhase ⟨fun i => if i = "A" then .ragFailure else
          .ragSuccess, fun _ => true, []⟩ [("A", 1)]
          [⟨"A", "a", "/a", "text/plain", 5, 1⟩,
           ⟨"B", "b", "/b", "text/plain", 7, 1⟩]).known "A" = some 5) ∧
    ((match (⟨fun i => if i = "A" then .ragFailure else .ragSuccess,
          fun _ => true, []⟩ : LocalEnv).proc "A" with
        | .ragSuccess => true
        | _ => false) = false →
      kLookup (processPhase ⟨fun i => if i = "A" then .ragFailure else
          .ragSuccess, fun _ => true, []⟩ [("A", 1)]
          [⟨"A", "a", "/a", "text/plain", 5, 1⟩,
           ⟨"B", "b", "/b", "text/plain", 7, 1⟩]).known "A"
        = kLookup [("A", 1)] "A") ∧
    (processPhase ⟨fun i => if i = "A" then .ragFailure else .ragSuccess,
        fun _ => true, []⟩ [("A", 1)]
        [⟨"A", "a", "/a", "text/plain", 5, 1⟩,
         ⟨"B", "b", "/b", "text/plain", 7, 1⟩]).processed
      = (List.filter (procOk ⟨fun i => if i = "A" then .ragFailure else
          .ragSuccess, fun _ => true, []⟩)
          [⟨"A", "a", "/a", "text/plain", 5, 1⟩,
           ⟨"B", "b", "/b", "text/plain", 7, 1⟩]).length ∧
    (processPhase ⟨fun i => if i = "A" then .ragFailure else .ragSuccess,
        fun _ => true, []⟩ [("A", 1)]
        [⟨"A", "a", "/a", "text/plain", 5, 1⟩,
         ⟨"B", "b", "/b", "text/plain", 7, 1⟩]).errors
      = (List.filter (fun g => ! procOk ⟨fun i => if i = "A" then .ragFailure
          else .ragSuccess, fun _ => true, []⟩ g)
          [⟨"A", "a", "/a", "text/plain", 5, 1⟩,
           ⟨"B", "b", "/b", "text/plain", 7, 1⟩]).length ∧
    (∀ (denv : DriveEnv) (supported : List String) (k : KnownMap)
        (g : DriveFile) (eff : DriveProcEffects),
      driveProcessFile denv supported k g = .ok eff →
      (driveProcessLoop denv supported [g] ⟨k, 0, 0, 0, [], [], []⟩).known
        = kInsert eff.known g.id g.modifiedTime) :=
  C6_amended_watermark
    ⟨fun i => if i = "A" then .ragFailure else .ragSuccess, fun _ => true, []⟩
    [("A", 1)]
    [⟨"A", "a", "/a", "text/plain", 5, 1⟩, ⟨"B", "b", "/b", "text/plain", 7, 1⟩]
    ⟨"A", "a", "/a", "text/plain", 5, 1⟩ (by decide) (by decide)

/-- C7 counterexample: in the local pipeline a file whose extraction yields
empty text makes `process_file` return `False`, which `check_for_changes`
counts in the cycle's `errors` statistic — the claim requires the errors
counter not to be incremented for such a file (no store write does occur). -/
theorem C7_counterexample :
    (checkForChanges ⟨fun _ => .emptyText, fun _ => true, []⟩ ["text/plain"]
        (some [⟨"e.txt", "/d/e.txt", false, some "text/plain", 4, 2, true⟩])
        []).stats.errors = 1 ∧
    (checkForChanges ⟨fun _ => .emptyText, fun _ => true, []⟩ ["text/plain"]
        (some [⟨"e.txt", "/d/e.txt", false, some "text/plain", 4, 2, true⟩])
        []).ragCalls = [] ∧
    (checkForChanges ⟨fun _ => .emptyText, fun _ => true, []⟩ ["text/plain"]
        (some [⟨"e.txt", "/d/e.txt", false, some "text/plain", 4, 2, true⟩])
        []).stats.filesProcessed = 0 := by
  decide

/-- C7 amended: a file whose extraction yields empty text never reaches
`process_file_for_rag` (no Document Store write) in either pipeline and its
watermark is not recorded by `process_file`; the remote pipeline skips it
without an error, but the local pipeline counts it as a processing failure
in the cycle's `errors` statistic. -/
theorem C7_amended_empty_extraction (env : LocalEnv) (known : KnownMap)
    (f : SourceFile) (h : env.proc f.id = .emptyText)
    (denv : DriveEnv) (supported : List String) (k : KnownMap) (g : DriveFile)
    (hg : g.trashed = false) (hgp : denv.proc g.id = .emptyText) :
    (processFile env known f).ragCalled = false ∧
    (processFile env known f).ok = false ∧
    (processFile env known f).known = known ∧
    (processPhase env known [f]).errors = 1 ∧
    (driveProcessFile denv supported k g =
      (if driveIsSupported supported g.mimeType then .ok ⟨k, false, true, false⟩
       else .ok ⟨k, false, false, false⟩)) ∧
    (driveProcessLoop denv supported [g] ⟨k, 0, 0, 0, [], [], []⟩).errors = 0 ∧
    (driveProcessLoop denv supported [g] ⟨k, 0, 0, 0, [], [], []⟩).ragCalls
      = [] := by
  have hdrive : driveProcessFile denv supported k g =
      (if driveIsSupported supported g.mimeType then .ok ⟨k, false, true, false⟩
       else .ok ⟨k, false, false, false⟩) := by
    unfold driveProcessFile
    rw [hg]
    by_cases hs : driveIsSupported supported g.mimeType <;> simp [hs, hgp]
  refine ⟨by simp [processFile, h], by simp [processFile, h],
    by simp [processFile, h], ?_, hdrive, ?_, ?_⟩
  · simp [processPhase_eq, List.filter, procOk, h]
  · by_cases hs : driveIsSupported supported g.mimeType <;>
      simp [driveProcessLoop, drStep, hdrive, hs]
  · by_cases hs : driveIsSupported supported g.mimeType <;>
      simp [driveProcessLoop, drStep, hdrive, hs]

/-- C7 witness: one local file and one drive file, both with empty
extraction. -/
theorem C7_amended_empty_extraction_witness :
    (processFile ⟨fun _ => .emptyText, fun _ => true, []⟩ []
      ⟨"E", "e", "/e", "text/plain", 4, 2⟩).ragCalled = false ∧
    (processFile ⟨fun _ => .emptyText, fun _ => true, []⟩ []
      ⟨"E", "e", "/e", "text/plain", 4, 2⟩).ok = false ∧
    (processFile ⟨fun _ => .emptyText, fun _ => true, []⟩ []
      ⟨"E", "e", "/e", "text/plain", 4, 2⟩).known = [] ∧
    (processPhase ⟨fun _ => .emptyText, fun _ => true, []⟩ []
      [⟨"E", "e", "/e", "text/plain", 4, 2⟩]).errors = 1 ∧
    (driveProcessFile ⟨fun _ => .emptyText, fun _ => true, fun _ => .active⟩
        ["text/plain"] [] ⟨"G", "g", "text/plain", 6, false⟩ =
      (if driveIsSupported ["text/plain"] "text/plain"
       then .ok ⟨[], false, true, false⟩ else .ok ⟨[], false, false, false⟩)) ∧
    (driveProcessLoop ⟨fun _ => .emptyText, fun _ => true, fun _ => .active⟩
        ["text/plain"] [⟨"G", "g", "text/plain", 6, false⟩]
        ⟨[], 0, 0, 0, [], [], []⟩).errors = 0 ∧
    (driveProcessLoop ⟨fun _ => .emptyText, fun _ => true, fun _ => .active⟩
        ["text/plain"] [⟨"G", "g", "text/plain", 6, false⟩]
        ⟨[], 0, 0, 0, [], [], []⟩).ragCalls = [] :=
  C7_amended_empty_extraction ⟨fun _ => .emptyText, fun _ => true, []⟩ []
    ⟨"E", "e", "/e", "text/plain", 4, 2⟩ rfl
    ⟨fun _ => .emptyText, fun _ => true, fun _ => .active⟩ ["text/plain"] []
    ⟨"G", "g", "text/plain", 6, false⟩ rfl rfl

theorem driveProcessFile_ok_known (env : DriveEnv) (supported : List String)
    (m : KnownMap) (f : DriveFile) (eff : DriveProcEffects)
    (h : driveProcessFile env supported m f = .ok eff) (hm : NodupKeys m) :
    NodupKeys eff.known := by
  by_cases ht : f.trashed <;> by_cases hd : env.deleteOk f.id <;>
    by_cases hs : driveIsSupported supported f.mimeType <;>
      rcases hp : env.proc f.id with _ | _ | _ | _ | _ <;>
        simp [driveProcessFile, ht, hd, hs, hp] at h <;>
          (rw [← h]
           first
             | exact nodupKeys_kErase _ _ hm
             | exact nodupKeys_kInsert _ _ _ hm
             | exact hm)

theorem driveProcessLoop_known_nodup (env : DriveEnv) (supported : List String)
    (files : List DriveFile) :
    ∀ s : DriveLoopState, NodupKeys s.known →
      NodupKeys (driveProcessLoop env supported files s).known := by
  induction files with
  | nil => intro s h; exact h
  | cons f rest ih =>
    intro s h
    show NodupKeys (driveProcessLoop env supported rest
      (drStep env supported s f)).known
    apply ih
    cases hd : driveProcessFile env supported s.known f with
    | ok eff =>
      have : (drStep env supported s f).known =
          kInsert eff.known f.id f.modifiedTime := by
        unfold drStep
        rw [hd]
      rw [this]
      exact nodupKeys_kInsert _ _ _
        (driveProcessFile_ok_known env supported s.known f eff hd h)
    | error e =>
      have : (drStep env supported s f).known = s.known := by
        unfold drStep
        rw [hd]
      rw [this]
      exact h

theorem driveProcessLoop_docDeletes_mono (env : DriveEnv)
    (supported : List String) (files : List DriveFile) :
    ∀ s i, i ∈ s.docDeletes →
      i ∈ (driveProcessLoop env supported files s).docDeletes := by
  induction files with
  | nil => intro s i h; exact h
  | cons f rest ih =>
    intro s i h
    refine ih _ i ?_
    cases hd : driveProcessFile env supported s.known f with
    | ok eff =>
      have : (drStep env supported s f).docDeletes =
          s.docDeletes ++ (if eff.docDeleted then [f.id] else []) := by
        unfold drStep
        rw [hd]
      rw [this]
      exact List.mem_append_left _ h
    | error e =>
      have : (drStep env supported s f).docDeletes = s.docDeletes := by
        unfold drStep
        rw [hd]
      rw [this]
      exact h

theorem driveProcessLoop_docDeletes_mem (env : DriveEnv)
    (supported : List String) (files : List DriveFile) :
    ∀ s (f : DriveFile), f ∈ files → f.trashed = true →
      env.deleteOk f.id = true →
      f.id ∈ (driveProcessLoop env supported files s).docDeletes := by
  induction files with
  | nil => intro s f hf _ _; cases hf
  | cons g rest ih =>
    intro s f hf ht hd
    rcases List.mem_cons.mp hf with hfg | hfr
    · subst hfg
      apply driveProcessLoop_docDeletes_mono env supported rest
      have hpf : driveProcessFile env supported s.known f =
          .ok ⟨kErase s.known f.id, true, false, false⟩ := by
        unfold driveProcessFile
        simp [ht, hd]
      have : (drStep env supported s f).docDeletes =
          s.docDeletes ++ [f.id] := by
        unfold drStep
        rw [hpf]
        simp
      rw [this]
      exact List.mem_append_right _ (List.mem_singleton.mpr rfl)
    · exact ih _ f hfr ht hd

theorem driveDeleteLoop_docDeletes_mono (env : DriveEnv) (ids : List FileId) :
    ∀ s i, i ∈ s.docDeletes →
      i ∈ (driveDeleteLoop env ids s).docDeletes := by
  induction ids with
  | nil => intro s i h; exact h
  | cons j rest ih =>
    intro s i h
    refine ih _ i ?_
    unfold ddStep
    by_cases hd : env.deleteOk j
    · rw [if_pos hd]
      by_cases hs : (kLookup s.known j).isSome
      · rw [if_pos hs]
        exact List.mem_append_left _ h
      · rw [if_neg hs]
        exact h
    · rw [if_neg hd]
      exact h

theorem driveDeleteLoop_lookup_none_preserved (env : DriveEnv)
    (ids : List FileId) :
    ∀ s i, kLookup s.known i = none →
      kLookup (driveDeleteLoop env ids s).known i = none := by
  induction ids with
  | nil => intro s i h; exact h
  | cons j rest ih =>
    intro s i h
    refine ih _ i ?_
    unfold ddStep
    by_cases hd : env.deleteOk j
    · rw [if_pos hd]
      by_cases hs : (kLookup s.known j).isSome
      · rw [if_pos hs]
        exact kLookup_kErase_none _ _ _ h
      · rw [if_neg hs]
        exact h
    · rw [if_neg hd]
      exact h

theorem driveDeleteLoop_lookup_none_of_mem (env : DriveEnv)
    (ids : List FileId) :
    ∀ s i, NodupKeys s.known → i ∈ ids → env.deleteOk i = true →
      kLookup (driveDeleteLoop env ids s).known i = none := by
  induction ids with
  | nil => intro s i _ hi _; cases hi
  | cons j rest ih =>
    intro s i hn hi hd
    rcases List.mem_cons.mp hi with hij | hir
    · subst hij
      show kLookup (driveDeleteLoop env rest (ddStep env s i)).known i = none
      apply driveDeleteLoop_lookup_none_preserved
      unfold ddStep
      rw [if_pos hd]
      by_cases hs : (kLookup s.known i).isSome
      · rw [if_pos hs]
        exact kLookup_kErase_self _ _ hn
      · rw [if_neg hs]
        simpa using hs
    · refine ih _ i ?_ hir hd
      unfold ddStep
      by_cases hdj : env.deleteOk j
      · rw [if_pos hdj]
        by_cases hs : (kLookup s.known j).isSome
        · rw [if_pos hs]
          exact nodupKeys_kErase _ _ hn
        · rw [if_neg hs]
          exact hn
      · rw [if_neg hdj]
        exact hn

theorem mem_checkForDeletedFiles (env : DriveEnv) (known : KnownMap)
    (i : FileId) (hk : i ∈ kKeys known) (ht : env.trash i = .trashed) :
    i ∈ checkForDeletedFiles env known := by
  unfold checkForDeletedFiles
  rw [List.mem_filter]
  exact ⟨hk, by simp [ht]⟩

/-- C8 counterexample: a file that appears in the cycle's listing with the
trashed flag set while not previously known: `process_file` deletes its
documents, but the unconditional known-map update in `check_for_changes`
then records its id, so the cycle ends with the id present in the known-file
map — the claim requires it absent. -/
theorem C8_counterexample :
    (driveCheckForChanges ⟨fun _ => .ragSuccess, fun _ => true,
        fun _ => .active⟩ ["text/plain"] []
        [⟨"X", "doc", "text/plain", 3, true⟩]).docDeletes = ["X"] ∧
    (driveCheckForChanges ⟨fun _ => .ragSuccess, fun _ => true,
        fun _ => .active⟩ ["text/plain"] []
        [⟨"X", "doc", "text/plain", 3, true⟩]).known = [("X", 3)] := by
  decide

/-- C8 amended: for every trashed file in the cycle's listing whose
per-`file_id` delete succeeds, its indexed records are deleted during the
cycle; its id ends the cycle absent from the known-file map provided it was
present in the known map when the cycle's deleted-files check ran and that
check's trash probe reports it trashed — a trashed file not previously known
is instead re-added to the known map by the changed-files loop. -/
theorem C8_amended_trashed_transition (env : DriveEnv)
    (supported : List String) (known : KnownMap) (changed : List DriveFile)
    (f : DriveFile) (hn : NodupKeys known) (hf : f ∈ changed)
    (ht : f.trashed = true) (hdel : env.deleteOk f.id = true) :
    f.id ∈ (driveCheckForChanges env supported known changed).docDeletes ∧
    (env.trash f.id = .trashed → f.id ∈ kKeys known →
      kLookup (driveCheckForChanges env supported known changed).known f.id
        = none) := by
  constructor
  · show f.id ∈ (driveDeleteLoop env (checkForDeletedFiles env known)
      (driveProcessLoop env supported changed
        ⟨known, 0, 0, 0, [], [], []⟩)).docDeletes
    exact driveDeleteLoop_docDeletes_mono _ _ _ _
      (driveProcessLoop_docDeletes_mem env supported changed _ f hf ht hdel)
  · intro htr hk
    show kLookup (driveDeleteLoop env (checkForDeletedFiles env known)
      (driveProcessLoop env supported changed
        ⟨known, 0, 0, 0, [], [], []⟩)).known f.id = none
    exact driveDeleteLoop_lookup_none_of_mem _ _ _ _
      (driveProcessLoop_known_nodup env supported changed _ hn)
      (mem_checkForDeletedFiles env known f.id hk htr) hdel

/-- C8 witness: a previously known file listed as trashed: its documents are
deleted and its id leaves the known map by the end of the cycle. -/
theorem C8_amended_trashed_transition_witness :
    "X" ∈ (driveCheckForChanges ⟨fun _ => .ragSuccess, fun _ => true,
        fun _ => .trashed⟩ ["text/plain"] [("X", 1)]
        [⟨"X", "doc", "text/plain", 3, true⟩]).docDeletes ∧
    ((⟨fun _ => .ragSuccess, fun _ => true, fun _ => .trashed⟩ :
        DriveEnv).trash "X" = .trashed →
      "X" ∈ kKeys [("X", 1)] →
      kLookup (driveCheckForChanges ⟨fun _ => .ragSuccess, fun _ => true,
          fun _ => .trashed⟩ ["text/plain"] [("X", 1)]
          [⟨"X", "doc", "text/plain", 3, true⟩]).known "X" = none) :=
  C8_amended_trashed_transition
    ⟨fun _ => .ragSuccess, fun _ => true, fun _ => .trashed⟩ ["text/plain"]
    [("X", 1)] [⟨"X", "doc", "text/plain", 3, true⟩]
    ⟨"X", "doc", "text/plain", 3, true⟩
    (by unfold NodupKeys; decide) (by decide) rfl rfl

theorem scanDirectory_mem_iff (supported : List String)
    (entries : List DirEntry) (f : SourceFile) :
    f ∈ scanDirectory supported (some entries) ↔
      ∃ e ∈ entries, e.underHiddenDir = false ∧
        strStartsWith e.name "." = false ∧
        isSupportedFile supported e.guessedMime = true ∧ e.statOk = true ∧
        f = ⟨getFileId e.path, e.name, e.path, getFileMimeType e.guessedMime,
             e.mtime, e.size⟩ := by
  unfold scanDirectory
  rw [List.mem_filterMap]
  constructor
  · rintro ⟨e, he, hfe⟩
    refine ⟨e, he, ?_⟩
    by_cases h1 : e.underHiddenDir
    · simp [h1] at hfe
    by_cases h2 : strStartsWith e.name "."
    · simp [h1, h2] at hfe
    by_cases h3 : isSupportedFile supported e.guessedMime
    case neg =>
      simp [h1, h2, h3] at hfe
    by_cases h4 : e.statOk
    case neg =>
      simp [h1, h2, h3, h4] at hfe
    simp only [h1, h2, h3, h4] at hfe
    simp only [Bool.false_eq_true, if_false, not_true, if_true, not_false_iff,
      Option.some.injEq] at hfe
    refine ⟨by simpa using h1, by simpa using h2, by simpa using h3,
      by simpa using h4, ?_⟩
    rw [← hfe]
  · rintro ⟨e, he, h1, h2, h3, h4, rfl⟩
    exact ⟨e, he, by simp [h1, h2, h3, h4]⟩

/-- C9 counterexample: in the Google Drive cycle a listed file whose MIME
type (`image/png`) is absent from the supported list is skipped before
extraction, yet `check_for_changes` counts it in `files_processed` and
records its watermark — the claim requires it absent from the processed
counts. -/
theorem C9_counterexample :
    (driveCheckForChanges ⟨fun _ => .ragSuccess, fun _ => true,
        fun _ => .active⟩ ["application/pdf", "text/plain"] []
        [⟨"Y", "img", "image/png", 2, false⟩]).stats.filesProcessed = 1 ∧
    (driveCheckForChanges ⟨fun _ => .ragSuccess, fun _ => true,
        fun _ => .active⟩ ["application/pdf", "text/plain"] []
        [⟨"Y", "img", "image/png", 2, false⟩]).extractCalls = [] ∧
    (driveCheckForChanges ⟨fun _ => .ragSuccess, fun _ => true,
        fun _ => .active⟩ ["application/pdf", "text/plain"] []
        [⟨"Y", "img", "image/png", 2, false⟩]).ragCalls = [] ∧
    (driveCheckForChanges ⟨fun _ => .ragSuccess, fun _ => true,
        fun _ => .active⟩ ["application/pdf", "text/plain"] []
        [⟨"Y", "img", "image/png", 2, false⟩]).known = [("Y", 2)] := by
  decide

/-- C9 amended: a file whose MIME type is unsupported is never passed to
extraction or ingestion: the local pipeline excludes it (and hidden files
and files under hidden directories) already at scan time, so it is absent
from the listing and all counts; the remote pipeline skips it inside
`process_file` (matching the type by prefix against the allowlist) but still
counts it in `files_processed` and records its watermark. -/
theorem C9_amended_unsupported_mime (supported : List String) :
    (∀ (entries : List DirEntry) (f : SourceFile),
        f ∈ scanDirectory supported (some entries) →
        supported.contains f.mimeType = true) ∧
    (∀ (entries : List DirEntry) (f : SourceFile),
        f ∈ scanDirectory supported (some entries) →
        ∃ e ∈ entries, e.underHiddenDir = false ∧
          strStartsWith e.name "." = false ∧ f.name = e.name) ∧
    (∀ (env : LocalEnv) (dir : Option (List DirEntry)) (known : KnownMap)
        (i : FileId),
        i ∈ (checkForChanges env supported dir known).attempts →
        i ∈ (scanDirectory supported dir).map (·.id)) ∧
    (∀ (denv : DriveEnv) (k : KnownMap) (g : DriveFile),
        g.trashed = false → driveIsSupported supported g.mimeType = false →
        driveProcessFile denv supported k g = .ok ⟨k, false, false, false⟩ ∧
        (driveProcessLoop denv supported [g]
          ⟨k, 0, 0, 0, [], [], []⟩).processed = 1 ∧
        (driveProcessLoop denv supported [g]
          ⟨k, 0, 0, 0, [], [], []⟩).known
          = kInsert k g.id g.modifiedTime) := by
  refine ⟨?_, ?_, ?_, ?_⟩
  · intro entries f hf
    rw [scanDirectory_mem_iff] at hf
    obtain ⟨e, _, _, _, h3, _, rfl⟩ := hf
    exact h3
  · intro entries f hf
    rw [scanDirectory_mem_iff] at hf
    obtain ⟨e, he, h1, h2, _, _, rfl⟩ := hf
    exact ⟨e, he, h1, h2, rfl⟩
  · intro env dir known i hi
    have hatt : (checkForChanges env supported dir known).attempts =
        ((getChanges (scanDirectory supported dir) known).changed).map
          (·.id) := by
      simp only [checkForChanges, processPhase_eq]
    rw [hatt, List.mem_map] at hi
    obtain ⟨g, hg, rfl⟩ := hi
    rw [getChanges_changed_mem] at hg
    exact List.mem_map_of_mem _ hg.1
  · intro denv k g hg hs
    have hpf : driveProcessFile denv supported k g =
        .ok ⟨k, false, false, false⟩ := by
      unfold driveProcessFile
      simp [hg, hs]
    exact ⟨hpf, by simp [driveProcessLoop, drStep, hpf],
      by simp [driveProcessLoop, drStep, hpf]⟩

/-- C9 witness: a supported scanned file carries a supported MIME type. -/
theorem C9_amended_unsupported_mime_witness :
    ["text/plain"].contains
      (⟨"md5:/w/n", "n.txt", "/w/n", "text/plain", 3, 1⟩ :
        SourceFile).mimeType = true :=
  (C9_amended_unsupported_mime ["text/plain"]).1
    [⟨"n.txt", "/w/n", false, some "text/plain", 3, 1, true⟩]
    ⟨"md5:/w/n", "n.txt", "/w/n", "text/plain", 3, 1⟩ (by decide)

end RagPipeline
